import Mathlib

/-!
Verification development for the forensic triage pipeline
(`backend/forensics.py`, `backend/main.py`, `backend/ml_pipeline.py`).

Embedding conventions:
* byte strings are `List ℕ` (each entry a byte value);
* Python floats are modelled as `ℚ`; the operations the pipeline applies to
  them (`min`, `max`, comparisons, `int(...)` truncation, `round`) are exact
  on the rationals involved in the claims;
* the Shannon-entropy *value* computed by `_entropy` is irrational in general,
  so it enters the model as an input field/argument (`ent`, `rawEnt`) carrying
  the value of `_entropy` on the corresponding bytes; every use the pipeline
  makes of it (comparisons and affine arithmetic) is modelled exactly;
* the external statistical model (`score_bytes` / the loaded classifier) is an
  opaque collaborator: it is passed in as an optional scoring function
  (`none` models the model being unavailable, every call raising);
* SHA-256 digests are modelled by the exact byte stream fed to the hash
  (the digest is a function of those bytes); what the claims speak about is
  presence/absence and which bytes were hashed, never the hash value itself.
-/

namespace DFIR

/-! ### Byte and string helpers -/

/-- ASCII lowercasing of one byte, as Python `bytes.lower` does. -/
def lowerByte (b : ℕ) : ℕ := if 65 ≤ b ∧ b ≤ 90 then b + 32 else b

/-- ASCII lowercasing of a byte string (`head.lower()`). -/
def lowerBytes (bs : List ℕ) : List ℕ := bs.map lowerByte

/-- Byte values of an ASCII string literal. -/
def asciiBytes (s : String) : List ℕ := s.toList.map Char.toNat

/-- Does `needle` occur as a contiguous run inside `hay`? -/
def containsSeq [DecidableEq α] (hay needle : List α) : Bool :=
  (List.range (hay.length + 1)).any (fun i => decide ((hay.drop i).take needle.length = needle))

/-- `needle in hay` on byte strings. -/
def bytesContain (hay needle : List ℕ) : Bool := containsSeq hay needle

/-- `sub in s` on text strings. -/
def strContains (s sub : String) : Bool := containsSeq s.toList sub.toList

/-- ASCII lowercasing of a character (`str.lower` restricted to ASCII data). -/
def lowerChar (c : Char) : Char :=
  if 65 ≤ c.toNat ∧ c.toNat ≤ 90 then Char.ofNat (c.toNat + 32) else c

/-- ASCII lowercasing of a string. -/
def strLower (s : String) : String := String.mk (s.toList.map lowerChar)

/-- Python whitespace for `str.strip()`. -/
def isSpaceChar (c : Char) : Bool :=
  c.toNat == 32 || c.toNat == 9 || c.toNat == 10 || c.toNat == 13
    || c.toNat == 11 || c.toNat == 12

/-- Python `s.strip()`. -/
def pyStrip (s : String) : String :=
  String.mk (((s.toList.dropWhile isSpaceChar).reverse.dropWhile isSpaceChar).reverse)

/-- Python `int(x)` on a float: truncation toward zero. -/
def pyTrunc (q : ℚ) : ℤ := if 0 ≤ q then ⌊q⌋ else ⌈q⌉

/-- Python `round(x)` with no digits: round half to even. -/
def pyRound (q : ℚ) : ℤ :=
  if q - ⌊q⌋ < 1/2 then ⌊q⌋
  else if 1/2 < q - ⌊q⌋ then ⌊q⌋ + 1
  else if 2 ∣ ⌊q⌋ then ⌊q⌋ else ⌊q⌋ + 1

/-- Python `max` of a list of floats (0 for the empty list, which the code
never asks for). -/
def pyMax : List ℚ → ℚ
  | [] => 0
  | a :: t => t.foldl max a

/-! ### `ml_pipeline.postprocess_content_aware` (the effective, last
definition, `ml_pipeline.py` lines 310-328) -/

/-- Is a byte a UTF-8 continuation byte (`0x80`-`0xBF`)? -/
def utf8Cont (c : ℕ) : Bool := 128 ≤ c && c ≤ 191

/-- The decode loop of `pyDecodeIgnore`, structurally recursive on a fuel
argument; every recursive call shrinks the list by at least one byte while
spending exactly one unit of fuel, so with `fuel ≥ length` (as
`pyDecodeIgnore` arranges) the fuel never runs out before the list does. -/
def pyDecodeIgnoreAux : ℕ → List ℕ → List ℕ
  | _, [] => []
  | 0, _ :: _ => []
  | fuel + 1, b :: rest =>
    if b ≤ 127 then b :: pyDecodeIgnoreAux fuel rest
    else if 194 ≤ b ∧ b ≤ 223 then
      match rest with
      | [] => []
      | c1 :: rest1 =>
        if utf8Cont c1 then ((b % 32) * 64 + c1 % 64) :: pyDecodeIgnoreAux fuel rest1
        else pyDecodeIgnoreAux fuel (c1 :: rest1)
    else if 224 ≤ b ∧ b ≤ 239 then
      match rest with
      | [] => []
      | c1 :: rest1 =>
        if (if b = 224 then 160 ≤ c1 && c1 ≤ 191
            else if b = 237 then 128 ≤ c1 && c1 ≤ 159
            else utf8Cont c1) = true then
          match rest1 with
          | [] => []
          | c2 :: rest2 =>
            if utf8Cont c2 then
              ((b % 16) * 4096 + (c1 % 64) * 64 + c2 % 64) :: pyDecodeIgnoreAux fuel rest2
            else pyDecodeIgnoreAux fuel (c2 :: rest2)
        else pyDecodeIgnoreAux fuel (c1 :: rest1)
    else if 240 ≤ b ∧ b ≤ 244 then
      match rest with
      | [] => []
      | c1 :: rest1 =>
        if (if b = 240 then 144 ≤ c1 && c1 ≤ 191
            else if b = 244 then 128 ≤ c1 && c1 ≤ 143
            else utf8Cont c1) = true then
          match rest1 with
          | [] => []
          | c2 :: rest2 =>
            if utf8Cont c2 then
              match rest2 with
              | [] => []
              | c3 :: rest3 =>
                if utf8Cont c3 then
                  ((b % 8) * 262144 + (c1 % 64) * 4096 + (c2 % 64) * 64 + c3 % 64) ::
                    pyDecodeIgnoreAux fuel rest3
                else pyDecodeIgnoreAux fuel (c3 :: rest3)
            else pyDecodeIgnoreAux fuel (c2 :: rest2)
        else pyDecodeIgnoreAux fuel (c1 :: rest1)
    else pyDecodeIgnoreAux fuel rest

/-- CPython's `bytes.decode("utf-8", errors="ignore")`: decode UTF-8 into
code points, dropping the maximal subpart of each ill-formed subsequence and
resuming at the first offending byte; a truncated sequence at end of input
is dropped.  Start bytes `0x80`-`0xC1` and `0xF5`-`0xFF` are invalid;
`0xE0`/`0xED` constrain their first continuation to `0xA0`-`0xBF` /
`0x80`-`0x9F` (no overlong forms, no surrogates), and `0xF0`/`0xF4` to
`0x90`-`0xBF` / `0x80`-`0x8F` (no overlong forms, nothing past U+10FFFF). -/
def pyDecodeIgnore (l : List ℕ) : List ℕ := pyDecodeIgnoreAux l.length l

/-- Is a code point a regex word character of the ASCII plane
(`[A-Za-z0-9_]`)?  This is exactly Python's `\w` on ASCII text; on
non-ASCII text Python's Unicode word class is larger, which is why the C10
cap theorem restricts to ASCII-decoded heads. -/
def wordByte (b : ℕ) : Bool :=
  (48 ≤ b && b ≤ 57) || (65 ≤ b && b ≤ 90) || (97 ≤ b && b ≤ 122) || b == 95

/-- Does `pat` occur in `text` at position `i`? -/
def matchesAt (text pat : List ℕ) (i : ℕ) : Bool :=
  (text.drop i).take pat.length == pat

/-- Occurrence at `i` with regex word boundaries on both sides. -/
def wordMatchAt (text pat : List ℕ) (i : ℕ) : Bool :=
  matchesAt text pat i
    && (i == 0 || !wordByte (text.getD (i - 1) 0))
    && (i + pat.length == text.length || !wordByte (text.getD (i + pat.length) 0))

/-- Case-insensitive `\b kw \b` regex search over decoded code points
(`kw` written lowercase), with ASCII case folding and the ASCII word class —
exactly Python's `re.search(..., re.I)` semantics when `text` is ASCII. -/
def containsWordCI (text : List ℕ) (kw : String) : Bool :=
  (List.range text.length).any (fun i => wordMatchAt (lowerBytes text) (asciiBytes kw) i)

/-- The macro-keyword alternation of the postprocess regex, lowercased. -/
def macroKws : List String := ["autoopen", "document_open", "autoexec", "thisdocument"]

/-- The PowerShell-keyword alternation of the postprocess regex, lowercased. -/
def pwshKws : List String := ["powershell", "encodedcommand", "frombase64string", "invoke-mimikatz"]

/-- `file_bytes[:2] == b"MZ"`. -/
def hasPEHeader (bs : List ℕ) : Bool := bs.take 2 == [77, 90]

/-- `re.search(macro-alternation, text, re.I)` succeeded. -/
def hasMacroKw (text : List ℕ) : Bool := macroKws.any (fun k => containsWordCI text k)

/-- `re.search(pwsh-alternation, text, re.I)` succeeded. -/
def hasPwshKw (text : List ℕ) : Bool := pwshKws.any (fun k => containsWordCI text k)

/-- `re.search("https?://", text, re.I)` succeeded. -/
def hasUrlKw (text : List ℕ) : Bool :=
  bytesContain (lowerBytes text) (asciiBytes "http://")
    || bytesContain (lowerBytes text) (asciiBytes "https://")

/-- Is a byte in the base64 alphabet `[A-Za-z0-9+/]`? -/
def b64Byte (b : ℕ) : Bool :=
  (65 ≤ b && b ≤ 90) || (97 ≤ b && b ≤ 122) || (48 ≤ b && b ≤ 57) || b == 43 || b == 47

/-- `re.search("[A-Za-z0-9+/]{40,}={0,2}", text)` succeeded: a run of at
least 40 base64-alphabet bytes exists (the `={0,2}` tail is optional). -/
def hasB64Chunk (text : List ℕ) : Bool :=
  (List.range text.length).any
    (fun i => ((text.drop i).take 40).length == 40 && ((text.drop i).take 40).all b64Byte)

/-- The benign-extension tuple of `postprocess_content_aware`. -/
def benignExts : List String := [".pdf", ".txt", ".csv", ".json"]

/-- Python `s.endswith(suf)`. -/
def strEndsWith (s suf : String) : Bool :=
  s.toList.drop (s.toList.length - suf.toList.length) == suf.toList

/-- `name.endswith(benign tuple)` on the lowercased filename. -/
def benignName (filename : String) : Bool :=
  benignExts.any (fun e => strEndsWith (strLower filename) e)

/-- Effective `postprocess_content_aware(raw_score, file_bytes, filename)`:
the last definition in `ml_pipeline.py` wins at import time.  The
`file_bytes[:256_000].decode(errors="ignore")` step is modelled exactly by
`pyDecodeIgnore`; the keyword matchers then implement Python's regex
semantics for ASCII text (the C10 cap theorem restricts to heads whose
decode is ASCII, where this is exact — on non-ASCII text Python's Unicode
case folding and word class could differ).  The `url`/`b64` signals only
ever raise the score, so their values are irrelevant to every claim
proved here. -/
def postprocessContentAware (rawScore : ℚ) (fileBytes : List ℕ) (filename : String) : ℚ :=
  let text := pyDecodeIgnore (fileBytes.take 256000)
  let pe := hasPEHeader fileBytes
  let mac := hasMacroKw text
  let pw := hasPwshKw text
  let url := hasUrlKw text
  let b64 := hasB64Chunk text
  let s1 := rawScore
  let s2 := if pe then max s1 65 else s1
  let s3 := if mac || pw then max s2 55 else s2
  let s4 := if url && b64 then max s3 45 else s3
  let s5 := if benignName filename && !(pe || mac || pw) then min s4 40 else s4
  max 0 (min 100 s5)

/-! ### Forensics data model (`forensics.py`) -/

/-- A regular file yielded by the filesystem traversal, together with the data
the per-file extraction stage reads from it.  `head` is the bounded head
sample `read_random(0, min(1 MiB, size))` (empty when the read raised) and
`ent` is the value `_entropy(head)`. -/
structure TFile where
  path : String
  size : ℕ
  head : List ℕ
  ent : ℚ
  ctime : Option ℤ
  mtime : Option ℤ
  atime : Option ℤ
  deriving DecidableEq

/-- An entry of `suspicious_detail`. -/
structure SuspItem where
  path : String
  ext : String
  size : ℕ
  reason : String
  deriving DecidableEq

/-- A sample kept for ML triage. -/
structure Sample where
  path : String
  name : String
  head : List ℕ
  size : ℕ
  reason : String
  deriving DecidableEq

/-- A timeline row. -/
structure TimelineEntry where
  path : String
  size : ℕ
  ctime : Option ℤ
  mtime : Option ℤ
  atime : Option ℤ
  deriving DecidableEq

def peHeaderTok : String := "pe_header"
def jsKwTok : String := "js_keywords"
def vbsKwTok : String := "vbs_keywords"
def ps1KwTok : String := "ps1_keywords"
def suspExtTok : String := "susp_ext"
def highEntropyTok : String := "high_entropy"
def rawImageLbl : String := "[raw_image]"
def commaTok : String := ","
def functionKw : String := "function"
def evalKw : String := "eval("
def scriptTagKw : String := "<script"
def createobjectKw : String := "createobject"
def wscriptKw : String := "wscript"
def paramKw : String := "param("
def invokeKw : String := "invoke-"
def mzKw : String := "mz"
def exeExt : String := ".exe"
def jsExtTok : String := ".js"
def vbsExtTok : String := ".vbs"
def ps1ExtTok : String := ".ps1"

/-- `_SUSPICIOUS_EXTENSIONS`. -/
def suspExts : List String := [".exe", ".dll", ".js", ".vbs", ".ps1", ".bat", ".scr"]

def sepChar : Char := '/'
def dotChar : Char := '.'
def nulChar : Char := Char.ofNat 0

/-- Index of the last occurrence of `c` in `cs`. -/
def rfindIdx (cs : List Char) (c : Char) : Option ℕ :=
  (List.range cs.length).foldl
    (fun acc i => if cs.getD i nulChar == c then some i else acc) none

/-- Extension part of `os.path.splitext` (posixpath semantics: split at the
last dot of the basename, except when every character before it in the
basename is itself a dot). -/
def extOf (p : String) : String :=
  let cs := p.toList
  let si := match rfindIdx cs sepChar with
    | none => 0
    | some i => i + 1
  match rfindIdx cs dotChar with
  | none => ""
  | some di =>
    if decide (si ≤ di)
        && (List.range' si (di - si)).any (fun k => !(cs.getD k nulChar == dotChar)) then
      String.mk (cs.drop di)
    else ""

/-- `path.rsplit("/", 1)[-1]` / `os.path.basename` for the paths built here. -/
def basenameOf (p : String) : String :=
  match rfindIdx p.toList sepChar with
  | none => p
  | some i => String.mk (p.toList.drop (i + 1))

/-- Per-file signal extraction, `forensics.py` lines 384-404: the derived
`reasons` list, emitted in the fixed order. -/
def fileReasons (f : TFile) : List String :=
  let hl := lowerBytes f.head
  let isPe := f.head.take 2 == [77, 90]
  let isJs := bytesContain hl (asciiBytes functionKw) || bytesContain hl (asciiBytes evalKw)
    || bytesContain hl (asciiBytes scriptTagKw)
  let isVbs := bytesContain hl (asciiBytes createobjectKw) || bytesContain hl (asciiBytes wscriptKw)
  let isPs1 := bytesContain hl (asciiBytes paramKw) || bytesContain hl (asciiBytes invokeKw)
  let ext := extOf (strLower f.path)
  (if isPe then [peHeaderTok] else [])
    ++ (if isJs then [jsKwTok] else [])
    ++ (if isVbs then [vbsKwTok] else [])
    ++ (if isPs1 then [ps1KwTok] else [])
    ++ (if suspExts.contains ext then [suspExtTok] else [])
    ++ (if 15/2 ≤ f.ent ∧ 50000 < f.size then [highEntropyTok] else [])

/-- `",".join(reasons)`. -/
def joinReasons (rs : List String) : String := String.intercalate commaTok rs

/-- The `suspicious_detail` list built by the traversal loop. -/
def suspiciousDetailOf (files : List TFile) : List SuspItem :=
  files.filterMap (fun f =>
    let rs := fileReasons f
    if rs.isEmpty then none
    else some { path := f.path, ext := extOf (strLower f.path), size := f.size,
                reason := joinReasons rs })

/-- The explicit-reason tokens the Sampling Selector prioritises. -/
def explicitToks : List String := [peHeaderTok, jsKwTok, vbsKwTok, ps1KwTok, suspExtTok]

/-- `is_explicit`: some explicit token occurs in the comma-joined reasons. -/
def isExplicitF (f : TFile) : Bool :=
  explicitToks.any (fun t => strContains (joinReasons (fileReasons f)) t)

/-- `SAMPLE_SLICE = 256 * 1024`. -/
def sampleSlice : ℕ := 262144

/-- Sample built for a file admitted to `suspicious_first`. -/
def mkExplSample (f : TFile) : Sample :=
  { path := f.path, name := basenameOf f.path, head := f.head, size := f.size,
    reason := joinReasons (fileReasons f) }

/-- Sample built for a file picked from `largest_rest` (head re-read capped to
256 KiB, reason emptied). -/
def mkFillSample (f : TFile) : Sample :=
  { path := f.path, name := basenameOf f.path, head := f.head.take sampleSlice,
    size := f.size, reason := "" }

/-- The pool-building loop: explicit files go to `suspicious_first` while it
holds fewer than 8 items, everything else accumulates in `largest_rest`. -/
def selPools : List TFile → List Sample × List TFile → List Sample × List TFile
  | [], acc => acc
  | f :: rest, (sf, lr) =>
    if isExplicitF f ∧ sf.length < 8 then selPools rest (sf ++ [mkExplSample f], lr)
    else selPools rest (sf, lr ++ [f])

/-- Size-descending comparison used for `largest_rest` (`sorted` with
`reverse=True` is stable, as is `mergeSort`). -/
def sizeDescLe (a b : TFile) : Bool := decide (b.size ≤ a.size)

/-- The Sampling Selector (`forensics.py` lines 428-448 and 485-505):
the `suspicious_first` pool followed by `pick_more`, the largest remaining
files (stable size-descending sort) up to the cap of 8. -/
def selectSamples (files : List TFile) : List Sample :=
  (selPools files ([], [])).1 ++
    (((selPools files ([], [])).2.mergeSort sizeDescLe).take
      (8 - (selPools files ([], [])).1.length)).map mkFillSample

/-- Timeline projection of a traversed file. -/
def projTL (f : TFile) : TimelineEntry :=
  { path := f.path, size := f.size, ctime := f.ctime, mtime := f.mtime, atime := f.atime }

/-- The composite sort key of the timeline sort. -/
def tlKey (e : TimelineEntry) : ℕ × ℤ × ℕ × ℤ :=
  ((if e.mtime = none then 1 else 0 : ℕ), -(e.mtime.getD 0),
   (if e.ctime = none then 1 else 0 : ℕ), -(e.ctime.getD 0))

/-- Lexicographic comparison of two timeline keys. -/
def tlLe (a b : TimelineEntry) : Bool :=
  let x := tlKey a
  let y := tlKey b
  decide (x.1 < y.1) || (x.1 == y.1 && (decide (x.2.1 < y.2.1)
    || (x.2.1 == y.2.1 && (decide (x.2.2.1 < y.2.2.1)
      || (x.2.2.1 == y.2.2.1 && decide (x.2.2.2 ≤ y.2.2.2))))))

/-- The Timeline Builder (`forensics.py` lines 471-483). -/
def buildTimeline (files : List TFile) : List TimelineEntry :=
  (files.map projTL).mergeSort tlLe

/-- The zero-files raw-buffer fallback (`forensics.py` lines 515-525);
`head` is the first 5 MiB of the raw image. -/
def fallbackSuspicious (head : List ℕ) (totalLen : ℕ) : List SuspItem :=
  let hl := lowerBytes head
  (if bytesContain hl (asciiBytes mzKw) then
      [{ path := rawImageLbl, ext := exeExt, size := totalLen, reason := peHeaderTok }] else [])
  ++ (if bytesContain hl (asciiBytes functionKw) || bytesContain hl (asciiBytes evalKw)
        || bytesContain hl (asciiBytes scriptTagKw) then
      [{ path := rawImageLbl, ext := jsExtTok, size := totalLen, reason := jsKwTok }] else [])
  ++ (if bytesContain hl (asciiBytes createobjectKw) || bytesContain head (asciiBytes wscriptKw) then
      [{ path := rawImageLbl, ext := vbsExtTok, size := totalLen, reason := vbsKwTok }] else [])
  ++ (if bytesContain hl (asciiBytes paramKw) || bytesContain head (asciiBytes invokeKw) then
      [{ path := rawImageLbl, ext := ps1ExtTok, size := totalLen, reason := ps1KwTok }] else [])

/-- Gate for the whole-image per-file ML aggregate
(`forensics.py` lines 543-550): keep the max only when it reaches 60. -/
def mlGate (scores : List ℚ) : Option ℚ :=
  match scores with
  | [] => none
  | _ :: _ => let m := pyMax scores; if 60 ≤ m then some m else none

/-- Per-file scores collected during traversal: one `score_bytes` call per
flagged file, on its 1 MiB head and basename. `none` models `score_bytes`
being unavailable (every call raising). -/
def fileScoresOf (scorer : Option (List ℕ → String → ℚ)) (files : List TFile) : List ℚ :=
  match scorer with
  | none => []
  | some sc => (files.filter (fun f => !(fileReasons f).isEmpty)).map
      (fun f => sc f.head (basenameOf f.path))

/-- The analysis result fields `main.py` consumes. -/
structure Summary where
  numFiles : ℕ
  suspiciousDetail : List SuspItem
  samples : List Sample
  timeline : List TimelineEntry
  fallbackEntropy : Option ℚ
  fallbackSize : Option ℕ
  mlImageScore : Option ℚ

/-- `analyze_raw_image` after traversal: either the zero-files fallback
summary (with `fallback_entropy`/`fallback_size` populated and no
`ml_image_score`), or the normal summary (without fallback fields).
`rawHead` is the first 5 MiB of the buffer, `rawEnt` the value
`_entropy(rawHead)`, `rawLen` the full buffer length. -/
def analyzeSummary (files : List TFile) (rawHead : List ℕ) (rawEnt : ℚ) (rawLen : ℕ)
    (scorer : Option (List ℕ → String → ℚ)) : Summary :=
  if files.isEmpty then
    { numFiles := 0
      suspiciousDetail := fallbackSuspicious rawHead rawLen
      samples := []
      timeline := []
      fallbackEntropy := some rawEnt
      fallbackSize := some rawLen
      mlImageScore := none }
  else
    { numFiles := files.length
      suspiciousDetail := suspiciousDetailOf files
      samples := selectSamples files
      timeline := buildTimeline files
      fallbackEntropy := none
      fallbackSize := none
      mlImageScore := mlGate (fileScoresOf scorer files) }

/-! ### Risk aggregation (`main.py` lines 343-441) -/

/-- One scored triage sample. -/
structure ScoredSample where
  score : ℚ
  reason : String

/-- The ML triage loop: score each sample's head, postprocess content-aware. -/
def scoreSamples (scorer : Option (List ℕ → String → ℚ)) (samples : List Sample) :
    List ScoredSample :=
  match scorer with
  | none => []
  | some sc => samples.map (fun s =>
      { score := postprocessContentAware (sc s.head s.name) s.head s.name,
        reason := s.reason })

/-- `has_reason`: substring test over the `suspicious_detail` reasons. -/
def hasReasonSub (detail : List SuspItem) (sub : String) : Bool :=
  detail.any (fun x => strContains x.reason sub)

def peHitsOf (sm : Summary) : Bool := hasReasonSub sm.suspiciousDetail peHeaderTok

def scriptHitsOf (sm : Summary) : Bool :=
  hasReasonSub sm.suspiciousDetail jsKwTok || hasReasonSub sm.suspiciousDetail vbsKwTok
    || hasReasonSub sm.suspiciousDetail ps1KwTok

def extHitsOf (sm : Summary) : Bool := hasReasonSub sm.suspiciousDetail suspExtTok

/-- The gated adoption of the sample-scores maximum (`main.py` lines 366-375). -/
def mlTriageRisk (scored : List ScoredSample) : Option ℤ :=
  match scored with
  | [] => none
  | _ :: _ =>
    let maxMl : ℤ := pyTrunc (pyMax (scored.map (fun x => x.score)))
    let hasAny : Bool := scored.any (fun x => !(pyStrip x.reason).toList.isEmpty)
    if hasAny || decide (60 ≤ maxMl) then some maxMl
    else some (max 5 (min 30 maxMl))

/-- The heuristic fallback score (`main.py` lines 400-407). -/
def heuristicScore (peH scH exH : Bool) (suspCount : ℕ) : ℤ :=
  let s : ℤ := (if peH then 35 else 0) + (if scH then 25 else 0) + (if exH then 15 else 0)
    + min 25 (6 * max 0 ((suspCount : ℤ) - 1))
  max 20 (min 95 s)

/-- The entropy fallback score (`main.py` lines 410-419). -/
def entropyScore (ent : ℚ) (sizeHint : ℕ) : ℤ :=
  if 15/2 < ent then
    let base : ℤ := 5 + pyTrunc (max 0 (min (2/5) (ent - 38/5)) * (125/2))
    let bonus : ℤ := if sizeHint < 2000000 then 0 else 5
    max 5 (min 30 (base + bonus))
  else 5

/-- The score after the ML-triage / heuristic / entropy selection
(`main.py` lines 348-419): the value of `img_risk` before any override. -/
def riskPreOverride (sm : Summary) (scored : List ScoredSample) : ℤ :=
  match mlTriageRisk scored with
  | some r => r
  | none =>
    if peHitsOf sm || scriptHitsOf sm || extHitsOf sm then
      heuristicScore (peHitsOf sm) (scriptHitsOf sm) (extHitsOf sm) sm.suspiciousDetail.length
    else entropyScore (sm.fallbackEntropy.getD 0) (sm.fallbackSize.getD 0)

/-- The first, gated "Optional ML override" block (`main.py` lines 421-433). -/
def riskOverride1 (sm : Summary) (risk1 : ℤ) : ℤ :=
  match sm.mlImageScore with
  | none => risk1
  | some ml =>
    if peHitsOf sm || scriptHitsOf sm || extHitsOf sm || decide (60 ≤ ml) then
      pyTrunc (max (risk1 : ℚ) (min 95 ml))
    else
      pyTrunc (max 5 (min (min (((if risk1 = 0 then 5 else risk1 : ℤ) : ℚ)) 30) ml))

/-- The second, unconditional "Optional ML override if available" block
(`main.py` lines 435-441). -/
def riskOverride2 (sm : Summary) (risk2 : ℤ) : ℤ :=
  match sm.mlImageScore with
  | none => risk2
  | some ml => pyTrunc (max 5 (min 95 ml))

/-- The whole RAW-image risk aggregation of `analyze_file`
(`main.py` lines 343-441), including both sequential
"Optional ML override" blocks. -/
def analyzeImage (files : List TFile) (rawHead : List ℕ) (rawEnt : ℚ) (rawLen : ℕ)
    (scorer : Option (List ℕ → String → ℚ)) : ℤ :=
  let sm := analyzeSummary files rawHead rawEnt rawLen scorer
  riskOverride2 sm (riskOverride1 sm (riskPreOverride sm (scoreSamples scorer sm.samples)))

/-! ### The demo override and the non-RAW path of `analyze_file` -/

/-- `_deterministic_score`: map a digest-derived number into `[low, high]`. -/
def deterministicScore (num low high : ℕ) : ℕ := low + num % (high - low + 1)

/-- Demo override score for a "suspicious"-named RAW demo upload. -/
def demoSuspScore (num : ℕ) : ℕ := deterministicScore num 90 100

/-- Demo override score for a "benign"-named RAW demo upload. -/
def demoBenignScore (num : ℕ) : ℕ := deterministicScore num 5 20

/-- The non-RAW scoring path: model score, content-aware postprocess on the
first 256 KB, `int(round(...))`. -/
def nonRawRisk (modelScore : ℚ) (contents : List ℕ) (filename : String) : ℤ :=
  pyRound (postprocessContentAware modelScore (contents.take 256000) filename)

/-! ### `_hash_file` (`forensics.py` lines 134-158) -/

/-- A TSK file handle: the reported metadata size and the `read_random`
primitive.  `read off len = none` models the read raising; `some bs` models a
successful read returning `bs` (possibly fewer bytes than requested, possibly
empty at true EOF).  The SHA-256 digest is modelled by the byte stream fed to
the hasher. -/
structure TskFile where
  size : ℕ
  read : ℕ → ℕ → Option (List ℕ)

/-- `chunk_size = 1024 * 1024`. -/
def hashChunkSize : ℕ := 1048576

/-- The read loop of `_hash_file`.  A raising read aborts the whole
computation (the exception propagates to the outer handler, which drops the
digest); an empty read breaks the loop keeping the bytes accumulated so
far. -/
def hashChunks (f : TskFile) (offset : ℕ) (acc : List ℕ) : Option (List ℕ) :=
  if _h : offset < f.size then
    match f.read offset (min hashChunkSize (f.size - offset)) with
    | none => none
    | some [] => some acc
    | some (b :: bs) => hashChunks f (offset + (b :: bs).length) (acc ++ b :: bs)
  else some acc
termination_by f.size - offset
decreasing_by simp only [List.length_cons]; omega

/-- `_hash_file`: returns the reported size together with the hashed byte
stream, or `none` in place of the digest when a read raised. -/
def hashFile (f : TskFile) : ℕ × Option (List ℕ) := (f.size, hashChunks f 0 [])

/-! ### `_validate_disk_image` (`forensics.py` lines 161-198) -/

def tooSmallMsg : String := "File too small to be a disk image (< 512 bytes)"
def mbrMsg : String := "Valid MBR signature found"
def gptMsg : String := "GPT header detected at LBA1"
def largeBinMsg : String := "Large binary file, likely a disk image"
def noSigMsg : String := "No recognizable disk image signatures found"
def detectedSuffix : String := " detected"
def efiPartTag : String := "EFI PART"
def ntfsOem : String := "NTFS    "
def fat32Oem : String := "FAT32   "
def fat16Oem : String := "FAT16   "
def fat12Oem : String := "FAT12   "
def hfsMagic : String := "HFS+"
def ntfsDesc : String := "NTFS filesystem"
def fat32Desc : String := "FAT32 filesystem"
def fat16Desc : String := "FAT16 filesystem"
def fat12Desc : String := "FAT12 filesystem"
def extDesc : String := "EXT2/3/4 filesystem"
def hfsDesc : String := "HFS+ filesystem"

/-- The MBR boot signature bytes `0x55 0xAA`. -/
def mbrSigBytes : List ℕ := [85, 170]

/-- The fixed-offset filesystem signature table, in the dict insertion order
of the source. -/
def sigTable : List (List ℕ × ℕ × String) :=
  [ (asciiBytes ntfsOem, 3, ntfsDesc),
    (asciiBytes fat32Oem, 82, fat32Desc),
    (asciiBytes fat16Oem, 54, fat16Desc),
    (asciiBytes fat12Oem, 54, fat12Desc),
    ([83, 239], 1080, extDesc),
    (asciiBytes hfsMagic, 1024, hfsDesc) ]

/-- The signature loop: first table entry whose bytes occur at its offset
(with the source's strict `offset + len(sig) < len(file_bytes)` bound). -/
def sigScan (b : List ℕ) : Option String :=
  sigTable.findSome? (fun e =>
    if e.2.1 + e.1.length < b.length ∧ (b.drop e.2.1).take e.1.length = e.1 then some e.2.2
    else none)

/-- Printable ASCII for the binary heuristic: 32-126 or tab/newline/CR. -/
def printableByte (x : ℕ) : Bool :=
  (32 ≤ x && x ≤ 126) || x == 9 || x == 10 || x == 13

/-- The "large and mostly binary" heuristic. -/
def binaryHeuristic (b : List ℕ) : Bool :=
  if 1024000 < b.length then
    let sample := b.take 10000
    decide ((((sample.filter printableByte).length : ℚ)) / ((sample.length : ℚ)) < 4/5)
  else false

/-- `_validate_disk_image`: total verdict function over byte buffers. -/
def validateDiskImage (b : List ℕ) : Bool × String :=
  if b.length < 512 then (false, tooSmallMsg)
  else if (b.drop 510).take 2 = mbrSigBytes then (true, mbrMsg)
  else if 520 ≤ b.length ∧ (b.drop 512).take 8 = asciiBytes efiPartTag then (true, gptMsg)
  else
    match sigScan b with
    | some desc => (true, desc ++ detectedSuffix)
    | none => if binaryHeuristic b then (true, largeBinMsg) else (false, noSigMsg)

theorem postprocess_nonneg (r : ℚ) (bs : List ℕ) (n : String) :
    0 ≤ postprocessContentAware r bs n := by
  unfold postprocessContentAware
  exact le_max_left 0 _

theorem postprocess_le_100 (r : ℚ) (bs : List ℕ) (n : String) :
    postprocessContentAware r bs n ≤ 100 := by
  unfold postprocessContentAware
  exact max_le (by norm_num) (min_le_left _ _)

/-! ### Arithmetic helper lemmas -/

theorem pyTrunc_of_nonneg {q : ℚ} (h : 0 ≤ q) : pyTrunc q = ⌊q⌋ := if_pos h

theorem pyTrunc_nonneg {q : ℚ} (h : 0 ≤ q) : 0 ≤ pyTrunc q := by
  rw [pyTrunc_of_nonneg h]
  exact Int.floor_nonneg.mpr h

theorem le_pyTrunc {n : ℤ} {q : ℚ} (hn : 0 ≤ n) (h : (n : ℚ) ≤ q) : n ≤ pyTrunc q := by
  have h0 : 0 ≤ q := le_trans (by exact_mod_cast hn) h
  rw [pyTrunc_of_nonneg h0]
  exact Int.le_floor.mpr h

theorem pyTrunc_le {n : ℤ} {q : ℚ} (h0 : 0 ≤ q) (h : q ≤ (n : ℚ)) : pyTrunc q ≤ n := by
  rw [pyTrunc_of_nonneg h0]
  calc ⌊q⌋ ≤ ⌊(n : ℚ)⌋ := Int.floor_le_floor h
    _ = n := Int.floor_intCast n

theorem floor_le_pyRound (q : ℚ) : ⌊q⌋ ≤ pyRound q := by
  unfold pyRound
  split
  · exact le_refl _
  · split
    · omega
    · split <;> omega

theorem pyRound_le_ceil (q : ℚ) : pyRound q ≤ ⌈q⌉ := by
  have hfc : ⌊q⌋ ≤ ⌈q⌉ := Int.floor_le_ceil q
  have key : ¬ (q - ⌊q⌋ < 1/2) → ⌊q⌋ + 1 ≤ ⌈q⌉ := by
    intro hr
    have hq : (⌊q⌋ : ℚ) < q := by
      have h1 : (1:ℚ)/2 ≤ q - ⌊q⌋ := le_of_not_lt hr
      linarith
    have : ⌊q⌋ < ⌈q⌉ := Int.lt_ceil.mpr hq
    omega
  unfold pyRound
  split
  · exact hfc
  · rename_i hr
    split
    · exact key hr
    · split
      · exact hfc
      · exact key hr

theorem pyRound_nonneg {q : ℚ} (h : 0 ≤ q) : 0 ≤ pyRound q := by
  have := floor_le_pyRound q
  have : (0:ℤ) ≤ ⌊q⌋ := Int.floor_nonneg.mpr h
  omega

theorem pyRound_le {n : ℤ} {q : ℚ} (h : q ≤ (n : ℚ)) : pyRound q ≤ n := by
  have h1 := pyRound_le_ceil q
  have h2 : ⌈q⌉ ≤ n := Int.ceil_le.mpr h
  omega

theorem foldl_max_le {b : ℚ} : ∀ (l : List ℚ) (i : ℚ), i ≤ b → (∀ x ∈ l, x ≤ b) →
    l.foldl max i ≤ b
  | [], i, hi, _ => hi
  | x :: t, i, hi, hl => by
    refine foldl_max_le t (max i x) ?_ (fun y hy => hl y (List.mem_cons_of_mem _ hy))
    exact max_le hi (hl x (List.mem_cons_self _ _))

theorem le_foldl_max : ∀ (l : List ℚ) (i : ℚ), i ≤ l.foldl max i
  | [], _ => le_refl _
  | x :: t, i => le_trans (le_max_left i x) (le_foldl_max t (max i x))

theorem pyMax_bounds {lo hi : ℚ} : ∀ (l : List ℚ), l ≠ [] → (∀ x ∈ l, lo ≤ x ∧ x ≤ hi) →
    lo ≤ pyMax l ∧ pyMax l ≤ hi
  | [], h, _ => absurd rfl h
  | x :: t, _, hl => by
    constructor
    · exact le_trans (hl x (List.mem_cons_self _ _)).1 (le_foldl_max t x)
    · exact foldl_max_le t x (hl x (List.mem_cons_self _ _)).2
        (fun y hy => (hl y (List.mem_cons_of_mem _ hy)).2)

/-! ### Bounds of the aggregation stages -/

theorem scoreSamples_bounds (scorer : Option (List ℕ → String → ℚ)) (samples : List Sample) :
    ∀ x ∈ scoreSamples scorer samples, 0 ≤ x.score ∧ x.score ≤ 100 := by
  cases scorer with
  | none => intro x hx; simp [scoreSamples] at hx
  | some sc =>
    intro x hx
    simp only [scoreSamples, List.mem_map] at hx
    obtain ⟨s, _, rfl⟩ := hx
    exact ⟨postprocess_nonneg _ _ _, postprocess_le_100 _ _ _⟩

theorem mlTriageRisk_bounds (scored : List ScoredSample)
    (hs : ∀ x ∈ scored, 0 ≤ x.score ∧ x.score ≤ 100) :
    ∀ r : ℤ, mlTriageRisk scored = some r → 0 ≤ r ∧ r ≤ 100 := by
  intro r hr
  cases scored with
  | nil => simp [mlTriageRisk] at hr
  | cons a t =>
    have hmap : ∀ x ∈ (a :: t).map (fun x => x.score), 0 ≤ x ∧ x ≤ 100 := by
      intro x hx
      simp only [List.mem_map] at hx
      obtain ⟨s, hs', rfl⟩ := hx
      exact hs s hs'
    have hmb := pyMax_bounds ((a :: t).map (fun x => x.score)) (by simp) hmap
    have hM0 : 0 ≤ pyTrunc (pyMax ((a :: t).map (fun x => x.score))) := pyTrunc_nonneg hmb.1
    have hM1 : pyTrunc (pyMax ((a :: t).map (fun x => x.score))) ≤ 100 :=
      pyTrunc_le hmb.1 (by exact_mod_cast hmb.2)
    simp only [mlTriageRisk] at hr
    split at hr
    · have hrr := (Option.some.injEq _ _).mp hr
      omega
    · have hrr := (Option.some.injEq _ _).mp hr
      subst hrr
      constructor
      · calc (0:ℤ) ≤ 5 := by norm_num
          _ ≤ _ := le_max_left _ _
      · exact max_le (by norm_num) (le_trans (min_le_left _ _) (by norm_num))

theorem heuristicScore_bounds (peH scH exH : Bool) (c : ℕ) :
    20 ≤ heuristicScore peH scH exH c ∧ heuristicScore peH scH exH c ≤ 95 :=
  ⟨le_max_left _ _, max_le (by norm_num) (min_le_left _ _)⟩

theorem entropyScore_bounds (ent : ℚ) (sizeHint : ℕ) :
    5 ≤ entropyScore ent sizeHint ∧ entropyScore ent sizeHint ≤ 30 := by
  unfold entropyScore
  split
  · exact ⟨le_max_left _ _, max_le (by norm_num) (min_le_left _ _)⟩
  · norm_num

theorem riskPreOverride_bounds (sm : Summary) (scored : List ScoredSample)
    (hs : ∀ x ∈ scored, 0 ≤ x.score ∧ x.score ≤ 100) :
    0 ≤ riskPreOverride sm scored ∧ riskPreOverride sm scored ≤ 100 := by
  unfold riskPreOverride
  split
  · rename_i r hr
    exact mlTriageRisk_bounds scored hs r hr
  · split
    · have h := heuristicScore_bounds (peHitsOf sm) (scriptHitsOf sm) (extHitsOf sm)
        sm.suspiciousDetail.length
      omega
    · have h := entropyScore_bounds (sm.fallbackEntropy.getD 0) (sm.fallbackSize.getD 0)
      omega

theorem riskOverride2_bounds (sm : Summary) (risk2 : ℤ)
    (h : 0 ≤ risk2 ∧ risk2 ≤ 100) :
    0 ≤ riskOverride2 sm risk2 ∧ riskOverride2 sm risk2 ≤ 100 := by
  unfold riskOverride2
  split
  · exact h
  · rename_i ml heq
    constructor
    · have h5 : (5:ℤ) ≤ pyTrunc (max 5 (min 95 ml)) := by
        refine le_pyTrunc (by norm_num) ?_
        push_cast
        exact le_max_left _ _
      omega
    · have h95 : pyTrunc (max 5 (min 95 ml)) ≤ (95:ℤ) := by
        refine pyTrunc_le (le_trans (by norm_num) (le_max_left 5 (min 95 ml))) ?_
        push_cast
        exact max_le (by norm_num) (min_le_left _ _)
      omega

theorem analyzeImage_bounds (files : List TFile) (rawHead : List ℕ) (rawEnt : ℚ) (rawLen : ℕ)
    (scorer : Option (List ℕ → String → ℚ)) :
    0 ≤ analyzeImage files rawHead rawEnt rawLen scorer ∧
      analyzeImage files rawHead rawEnt rawLen scorer ≤ 100 := by
  unfold analyzeImage
  set sm := analyzeSummary files rawHead rawEnt rawLen scorer with hsm
  have hpre := riskPreOverride_bounds sm (scoreSamples scorer sm.samples)
    (scoreSamples_bounds scorer sm.samples)
  have h1 : 0 ≤ riskOverride1 sm (riskPreOverride sm (scoreSamples scorer sm.samples)) ∧
      riskOverride1 sm (riskPreOverride sm (scoreSamples scorer sm.samples)) ≤ 100 := by
    unfold riskOverride1
    split
    · exact hpre
    · rename_i ml heq
      set r1 := riskPreOverride sm (scoreSamples scorer sm.samples) with hr1
      split
      · constructor
        · refine le_pyTrunc (le_refl 0) ?_
          push_cast
          exact le_trans (by exact_mod_cast hpre.1) (le_max_left _ _)
        · refine pyTrunc_le (le_trans (by exact_mod_cast hpre.1) (le_max_left _ _)) ?_
          refine max_le (by exact_mod_cast hpre.2) (le_trans (min_le_left _ _) (by norm_num))
      · constructor
        · refine le_pyTrunc (le_refl 0) ?_
          push_cast
          exact le_trans (by norm_num) (le_max_left 5 _)
        · have hq0 : (0:ℚ) ≤
              max 5 (min (min (((if r1 = 0 then 5 else r1 : ℤ) : ℚ)) 30) ml) :=
            le_trans (by norm_num) (le_max_left 5 _)
          refine pyTrunc_le hq0 ?_
          refine max_le (by norm_num) (le_trans (min_le_left _ _)
            (le_trans (min_le_right _ _) (by norm_num)))
  exact riskOverride2_bounds sm _ h1

/-! ### Claim theorems -/

/-- C1: for every input to the analysis pipeline — RAW-image aggregation over
any traversal result, raw-buffer data, entropy value and optional scorer
(covering the ML trusted path, the capped path, the heuristic path and the
entropy fallback), the deterministic demo override in both its bands, and the
non-RAW model-scoring path — the returned risk score is an integer in
[0, 100]. -/
theorem C1_risk_score_in_range :
    (∀ (files : List TFile) (rawHead : List ℕ) (rawEnt : ℚ) (rawLen : ℕ)
        (scorer : Option (List ℕ → String → ℚ)),
      0 ≤ analyzeImage files rawHead rawEnt rawLen scorer ∧
        analyzeImage files rawHead rawEnt rawLen scorer ≤ 100) ∧
    (∀ num : ℕ, (90 ≤ demoSuspScore num ∧ demoSuspScore num ≤ 100) ∧
        (5 ≤ demoBenignScore num ∧ demoBenignScore num ≤ 20)) ∧
    (∀ (ms : ℚ) (contents : List ℕ) (filename : String),
      0 ≤ nonRawRisk ms contents filename ∧ nonRawRisk ms contents filename ≤ 100) := by
  refine ⟨analyzeImage_bounds, fun num => ⟨⟨?_, ?_⟩, ⟨?_, ?_⟩⟩, fun ms c fn => ⟨?_, ?_⟩⟩
  · exact Nat.le_add_right 90 _
  · have : num % 11 < 11 := Nat.mod_lt _ (by norm_num)
    unfold demoSuspScore deterministicScore
    omega
  · exact Nat.le_add_right 5 _
  · have : num % 16 < 16 := Nat.mod_lt _ (by norm_num)
    unfold demoBenignScore deterministicScore
    omega
  · exact pyRound_nonneg (postprocess_nonneg _ _ _)
  · exact pyRound_le (by exact_mod_cast postprocess_le_100 ms (c.take 256000) fn)

/-- A traversed file whose content starts with `MZ` and whose path ends in
`.exe` (Scenario 3 of the spec). -/
def mzExeFile : TFile :=
  { path := "/mal.exe", size := 2, head := [77, 90], ent := 1,
    ctime := none, mtime := none, atime := none }

/-- A traversed file matching no heuristic. -/
def benignFile (n : ℕ) : TFile :=
  { path := "/f", size := n, head := [0], ent := 0,
    ctime := none, mtime := none, atime := none }

/-- Ten traversed files, none matching any heuristic (Scenario 4). -/
def tenBenign : List TFile :=
  [benignFile 1, benignFile 2, benignFile 3, benignFile 4, benignFile 5,
   benignFile 6, benignFile 7, benignFile 8, benignFile 9, benignFile 10]

/-- A file whose first read succeeds and whose second read raises. -/
def c6FailFile : TskFile :=
  { size := 2, read := fun off _ => if off = 0 then some [7] else none }

/-- A file whose reads all succeed, with an early zero-byte EOF. -/
def c6PartialFile : TskFile :=
  { size := 3, read := fun off _ => if off = 0 then some [1, 2] else some [] }

/-- C2, failing input: one file with an `MZ` head and `.exe` extension, the
scorer returning 60 everywhere.  The gated ML-triage step adopts 65 (the
content-aware nudge of the raw 60 on a PE head, trusted because the sample
carries explicit reasons), the whole-image model score is 60 (trusted, since
explicit reasons exist and 60 ≥ 60), yet the final result is 60: the second
"Optional ML override if available" block unconditionally replaces the score
with `int(max(5, min(95, ml)))`, lowering it below the pre-override 65 in
the trusted case — contradicting the claim that the override never lowers
the score in the trusted case. -/
theorem C2_second_override_discards_gated_score :
    mlTriageRisk (scoreSamples (some (fun _ _ => (60 : ℚ)))
        (analyzeSummary [mzExeFile] [] 0 0 (some (fun _ _ => (60 : ℚ)))).samples) = some 65 ∧
    (analyzeSummary [mzExeFile] [] 0 0 (some (fun _ _ => (60 : ℚ)))).mlImageScore = some 60 ∧
    analyzeImage [mzExeFile] [] 0 0 (some (fun _ _ => (60 : ℚ))) = 60 := by
  refine ⟨?_, ?_, ?_⟩
  · simp +decide [analyzeSummary, suspiciousDetailOf, fileReasons, mzExeFile, selectSamples,
      selPools, mkExplSample, scoreSamples, mlTriageRisk, joinReasons, isExplicitF,
      List.mergeSort, postprocessContentAware, pyMax, pyTrunc, pyStrip]
  · simp +decide [analyzeSummary, suspiciousDetailOf, fileReasons, mzExeFile, fileScoresOf,
      mlGate, joinReasons, pyMax]
  · simp +decide [analyzeImage, analyzeSummary, suspiciousDetailOf, fileReasons, mzExeFile,
      selectSamples, selPools, mkExplSample, scoreSamples, mlTriageRisk, peHitsOf, scriptHitsOf,
      extHitsOf, hasReasonSub, riskPreOverride, riskOverride1, riskOverride2, heuristicScore,
      entropyScore, fileScoresOf, mlGate, joinReasons, isExplicitF, List.mergeSort,
      postprocessContentAware, pyMax, pyTrunc, pyStrip]

/-- C3, amended: the entropy fallback applies the formula
`min(30, 5 + floor(min(0.4, ent - 7.6) * 62.5) + size bonus)` to the
whole-image head-sample entropy only when the enumeration found zero files —
only the zero-files fallback summary carries `fallback_entropy` — and with
entropy 7.9 and size at least 2,000,000 it yields 28.  When files were
found, the summary has no fallback entropy, so the entropy branch reads 0.0
and yields the floor 5 (see the counterexample). -/
theorem C3_entropy_fallback_zero_files :
    (∀ (rawHead : List ℕ) (rawEnt : ℚ) (rawLen : ℕ),
      fallbackSuspicious rawHead rawLen = [] →
      analyzeImage [] rawHead rawEnt rawLen none = entropyScore rawEnt rawLen) ∧
    (∀ (rawHead : List ℕ) (rawLen : ℕ),
      fallbackSuspicious rawHead rawLen = [] → 2000000 ≤ rawLen →
      analyzeImage [] rawHead (79/10) rawLen none = 28) := by
  have key : ∀ (rawHead : List ℕ) (rawEnt : ℚ) (rawLen : ℕ),
      fallbackSuspicious rawHead rawLen = [] →
      analyzeImage [] rawHead rawEnt rawLen none = entropyScore rawEnt rawLen := by
    intro rawHead rawEnt rawLen hfb
    simp [analyzeImage, analyzeSummary, hfb, scoreSamples, mlTriageRisk, riskPreOverride,
      riskOverride1, riskOverride2, peHitsOf, scriptHitsOf, extHitsOf, hasReasonSub]
  refine ⟨key, fun rawHead rawLen hfb hlen => ?_⟩
  rw [key rawHead (79/10) rawLen hfb]
  unfold entropyScore
  rw [if_pos (by norm_num), if_neg (by omega)]
  norm_num [pyTrunc]

/-- Witness for C3 (amended) at a concrete keyword-free raw buffer. -/
theorem C3_entropy_fallback_witness :
    analyzeImage [] [1, 2, 3] (79/10) 2000000 none = 28 :=
  C3_entropy_fallback_zero_files.2 [1, 2, 3] 2000000 (by simp +decide [fallbackSuspicious])
    (le_refl _)

/-- C3, counterexample to the claim as stated: an image whose enumeration
finds 10 files, none matching any heuristic, whole-image head entropy 7.9,
size 2,500,000 ≥ 2,000,000 and no model score.  The claim predicts 28, but
the files-found summary carries no `fallback_entropy`, so the entropy branch
reads 0.0 and the score is 5. -/
theorem C3_counterexample :
    analyzeImage tenBenign [1, 2, 3] (79/10) 2500000 none = 5 ∧
      analyzeImage tenBenign [1, 2, 3] (79/10) 2500000 none ≠ 28 := by
  have h : analyzeImage tenBenign [1, 2, 3] (79/10) 2500000 none = 5 := by
    simp +decide [analyzeImage, analyzeSummary, tenBenign, benignFile, suspiciousDetailOf,
      fileReasons, scoreSamples, mlTriageRisk, peHitsOf, scriptHitsOf, extHitsOf, hasReasonSub,
      riskPreOverride, riskOverride1, riskOverride2, heuristicScore, entropyScore, fileScoresOf,
      mlGate]
    norm_num
  exact ⟨h, by omega⟩

/-- C4: when the model produced no sample scores (scorer unavailable, hence
also no whole-image model score) and at least one of the pe/script/ext hits
is set, the aggregated score is
`35·pe + 25·script + 15·ext + min(25, 6·max(0, suspiciousCount - 1))`
clamped to [20, 95]. -/
theorem C4_heuristic_fallback (files : List TFile) (rawHead : List ℕ) (rawEnt : ℚ) (rawLen : ℕ)
    (h : peHitsOf (analyzeSummary files rawHead rawEnt rawLen none) = true ∨
      scriptHitsOf (analyzeSummary files rawHead rawEnt rawLen none) = true ∨
      extHitsOf (analyzeSummary files rawHead rawEnt rawLen none) = true) :
    analyzeImage files rawHead rawEnt rawLen none =
      max 20 (min 95
        ((if peHitsOf (analyzeSummary files rawHead rawEnt rawLen none) then 35 else 0) +
          (if scriptHitsOf (analyzeSummary files rawHead rawEnt rawLen none) then 25 else 0) +
          (if extHitsOf (analyzeSummary files rawHead rawEnt rawLen none) then 15 else 0) +
          min 25 (6 * max 0
            (((analyzeSummary files rawHead rawEnt rawLen none).suspiciousDetail.length : ℤ)
              - 1)))) := by
  have hml : (analyzeSummary files rawHead rawEnt rawLen none).mlImageScore = none := by
    cases files <;> simp [analyzeSummary, fileScoresOf, mlGate]
  have hb : (peHitsOf (analyzeSummary files rawHead rawEnt rawLen none) ||
      scriptHitsOf (analyzeSummary files rawHead rawEnt rawLen none) ||
      extHitsOf (analyzeSummary files rawHead rawEnt rawLen none)) = true := by
    rcases h with h | h | h <;> simp [h]
  show riskOverride2 _ (riskOverride1 _ (riskPreOverride _ (scoreSamples none _))) = _
  rw [show scoreSamples none (analyzeSummary files rawHead rawEnt rawLen none).samples = []
    from rfl]
  simp only [riskPreOverride, mlTriageRisk, hb, if_true, riskOverride1, riskOverride2, hml,
    heuristicScore]

/-- Witness for C4: Scenario 3 — one `MZ`-headed `.exe` file, no model, score
50. -/
theorem C4_heuristic_fallback_witness :
    analyzeImage [mzExeFile] [] 0 0 none = 50 := by
  have h := C4_heuristic_fallback [mzExeFile] [] 0 0
    (Or.inl (by simp +decide [analyzeSummary, suspiciousDetailOf, fileReasons, mzExeFile,
      peHitsOf, hasReasonSub, joinReasons]))
  rw [h]
  simp +decide [analyzeSummary, suspiciousDetailOf, fileReasons, mzExeFile, peHitsOf,
    scriptHitsOf, extHitsOf, hasReasonSub, joinReasons]

/-- C5, amended: every file flagged `pe_header` by the per-file signal
extraction has head bytes beginning with `4D 5A`; the zero-files raw-buffer
fallback instead flags `pe_header` exactly when the lowercased head contains
the byte pair `6D 7A` ("mz") anywhere, so its flagged buffer need not begin
with `4D 5A`. -/
theorem C5_pe_header_flags :
    (∀ f : TFile, peHeaderTok ∈ fileReasons f → f.head.take 2 = [77, 90]) ∧
    (∀ (head : List ℕ) (len : ℕ),
      ((fallbackSuspicious head len).any (fun it => strContains it.reason peHeaderTok)) = true ↔
        bytesContain (lowerBytes head) (asciiBytes mzKw) = true) := by
  constructor
  · intro f h
    by_cases hpe : f.head.take 2 = [77, 90]
    · exact hpe
    · exfalso
      have hpe' : (f.head.take 2 == [77, 90]) = false := by
        simpa using hpe
      simp only [fileReasons, hpe', Bool.false_eq_true, if_false, List.nil_append,
        List.mem_append] at h
      rcases h with ((((h | h) | h) | h) | h) <;>
        · revert h
          split <;> simp +decide
  · intro head len
    simp only [fallbackSuspicious]
    split_ifs with h1 h2 h3 h4 <;> simp +decide [h1, List.any_append]

/-- Counterexample for C5 as stated: the raw-buffer fallback on the bytes
"amz" synthesises a `pe_header` suspicious item although the buffer does not
begin with `4D 5A`. -/
theorem C5_counterexample :
    ((analyzeSummary [] [97, 109, 122] 0 3 none).suspiciousDetail.any
        (fun it => strContains it.reason peHeaderTok)) = true ∧
      [97, 109, 122].take 2 ≠ [77, 90] := by
  constructor
  · simp +decide [analyzeSummary, fallbackSuspicious]
  · decide

/-- Witness for C5 (amended), per-file part, at a concrete `MZ` file. -/
theorem C5_pe_header_flags_witness :
    peHeaderTok ∈ fileReasons mzExeFile ∧ mzExeFile.head.take 2 = [77, 90] :=
  ⟨by simp +decide [fileReasons, mzExeFile],
    C5_pe_header_flags.1 mzExeFile (by simp +decide [fileReasons, mzExeFile])⟩

/-! ### Hashing lemmas for C6 -/

theorem hashChunks_isSome (f : TskFile) (h : ∀ off len, (f.read off len).isSome = true) :
    ∀ (fuel offset : ℕ) (acc : List ℕ), f.size - offset ≤ fuel →
      (hashChunks f offset acc).isSome = true := by
  intro fuel
  induction fuel with
  | zero =>
    intro offset acc hle
    unfold hashChunks
    rw [dif_neg (by omega)]
    simp
  | succ n ih =>
    intro offset acc hle
    unfold hashChunks
    by_cases hlt : offset < f.size
    · rw [dif_pos hlt]
      cases hread : f.read offset (min hashChunkSize (f.size - offset)) with
      | none =>
        have hcontra := h offset (min hashChunkSize (f.size - offset))
        rw [hread] at hcontra
        simp at hcontra
      | some bs =>
        cases bs with
        | nil => simp
        | cons b bs =>
          show (hashChunks f (offset + (b :: bs).length) (acc ++ b :: bs)).isSome = true
          exact ih (offset + (b :: bs).length) (acc ++ b :: bs)
            (by simp only [List.length_cons]; omega)
    · rw [dif_neg hlt]
      simp

theorem hashChunks_none_exists (f : TskFile) :
    ∀ (fuel offset : ℕ) (acc : List ℕ), f.size - offset ≤ fuel →
      hashChunks f offset acc = none →
      ∃ off, f.read off (min hashChunkSize (f.size - off)) = none := by
  intro fuel
  induction fuel with
  | zero =>
    intro offset acc hle hnone
    unfold hashChunks at hnone
    rw [dif_neg (by omega)] at hnone
    exact absurd hnone (by simp)
  | succ n ih =>
    intro offset acc hle hnone
    unfold hashChunks at hnone
    by_cases hlt : offset < f.size
    · rw [dif_pos hlt] at hnone
      cases hread : f.read offset (min hashChunkSize (f.size - offset)) with
      | none => exact ⟨offset, hread⟩
      | some bs =>
        rw [hread] at hnone
        cases bs with
        | nil => exact absurd hnone (by simp)
        | cons b bs =>
          exact ih (offset + (b :: bs).length) (acc ++ b :: bs)
            (by simp only [List.length_cons]; omega) hnone
    · rw [dif_neg hlt] at hnone
      exact absurd hnone (by simp)

/-- C6, amended: the hasher omits the digest exactly when some `read_random`
call raises — not only when the very first one does: a mid-file raising read
aborts the whole digest (see the counterexample), while a zero-byte read
(early EOF) merely ends the loop, keeping the digest of the bytes read so
far; and the file record always retains the reported size. -/
theorem C6_hash_digest_absence :
    (∀ f : TskFile, (∀ off len, (f.read off len).isSome = true) →
      ((hashFile f).2).isSome = true) ∧
    (∀ f : TskFile, (hashFile f).1 = f.size) ∧
    (∀ f : TskFile, (hashFile f).2 = none →
      ∃ off, f.read off (min hashChunkSize (f.size - off)) = none) := by
  refine ⟨fun f h => ?_, fun f => rfl, fun f h => ?_⟩
  · exact hashChunks_isSome f h f.size 0 [] (by omega)
  · exact hashChunks_none_exists f f.size 0 [] (by omega) h

/-- Counterexample for C6 as stated: the first read succeeds (returning one
byte) and the second read raises; the claim promises a digest of the bytes
read so far, but `_hash_file` returns no digest. -/
theorem C6_counterexample :
    c6FailFile.read 0 (min hashChunkSize (c6FailFile.size - 0)) = some [7] ∧
      (hashFile c6FailFile).2 = none := by
  constructor
  · rfl
  · show hashChunks c6FailFile 0 [] = none
    unfold hashChunks
    rw [dif_pos (by decide)]
    rw [show c6FailFile.read 0 (min hashChunkSize (c6FailFile.size - 0)) = some [7] from rfl]
    unfold hashChunks
    rw [dif_pos (by decide)]
    rfl

/-- Witness for C6 (amended) at a file with a successful then zero-byte read
sequence. -/
theorem C6_hash_digest_absence_witness :
    ((hashFile c6PartialFile).2).isSome = true ∧ (hashFile c6PartialFile).1 = 3 :=
  ⟨C6_hash_digest_absence.1 c6PartialFile (fun off len => by
      by_cases h : off = 0 <;> simp [c6PartialFile, h]),
    (C6_hash_digest_absence.2.1 c6PartialFile).trans rfl⟩

/-! ### Sampling Selector lemmas for C7 -/

/-- The Sampling Selector's contract written from the spec's words: explicit
files first in traversal order up to the cap of 8, then the remaining slots
from the non-explicit files by size descending. -/
def specSamples (files : List TFile) : List Sample :=
  ((files.filter (fun f => isExplicitF f)).take 8).map mkExplSample ++
    (((files.filter (fun f => !(isExplicitF f))).mergeSort sizeDescLe).take
      (8 - ((files.filter (fun f => isExplicitF f)).take 8).length)).map mkFillSample

theorem selPools_fst : ∀ (files : List TFile) (sf : List Sample) (lr : List TFile),
    sf.length ≤ 8 →
    (selPools files (sf, lr)).1 =
      sf ++ ((files.filter (fun f => isExplicitF f)).take (8 - sf.length)).map mkExplSample := by
  intro files
  induction files with
  | nil => intro sf lr _; simp [selPools]
  | cons f rest ih =>
    intro sf lr hle
    unfold selPools
    by_cases hex : isExplicitF f = true
    · by_cases hlt : sf.length < 8
      · rw [if_pos ⟨hex, hlt⟩]
        rw [ih (sf ++ [mkExplSample f]) lr (by simp; omega)]
        have hsplit : (8 - sf.length) = (8 - (sf ++ [mkExplSample f]).length) + 1 := by
          simp
          omega
        simp only [List.filter_cons, hex, if_true, hsplit, List.take_succ_cons, List.map_cons,
          List.append_assoc, List.singleton_append, List.length_append, List.length_cons,
          List.length_nil]
      · rw [if_neg (fun hc => hlt hc.2)]
        rw [ih sf (lr ++ [f]) hle]
        have h8 : sf.length = 8 := by omega
        simp [List.filter_cons, hex, h8]
    · have hex' : isExplicitF f = false := by
        revert hex
        cases isExplicitF f <;> simp
      rw [if_neg (fun hc => by rw [hex'] at hc; exact Bool.false_ne_true hc.1)]
      rw [ih sf (lr ++ [f]) hle]
      simp [List.filter_cons, hex']

theorem selPools_snd : ∀ (files : List TFile) (sf : List Sample) (lr : List TFile),
    (files.filter (fun f => isExplicitF f)).length ≤ 8 - sf.length → sf.length ≤ 8 →
    (selPools files (sf, lr)).2 = lr ++ files.filter (fun f => !(isExplicitF f)) := by
  intro files
  induction files with
  | nil => intro sf lr _ _; simp [selPools]
  | cons f rest ih =>
    intro sf lr hcount hle
    unfold selPools
    by_cases hex : isExplicitF f = true
    · have hcount' : (rest.filter (fun f => isExplicitF f)).length + 1 ≤ 8 - sf.length := by
        have : ((f :: rest).filter (fun f => isExplicitF f)).length =
            (rest.filter (fun f => isExplicitF f)).length + 1 := by
          simp [List.filter_cons, hex]
        omega
      have hlt : sf.length < 8 := by omega
      rw [if_pos ⟨hex, hlt⟩]
      rw [ih (sf ++ [mkExplSample f]) lr (by simp; omega) (by simp; omega)]
      simp [List.filter_cons, hex]
    · have hex' : isExplicitF f = false := by
        revert hex
        cases isExplicitF f <;> simp
      rw [if_neg (fun hc => by rw [hex'] at hc; exact Bool.false_ne_true hc.1)]
      rw [ih sf (lr ++ [f]) (by simpa [List.filter_cons, hex'] using hcount) hle]
      simp [List.filter_cons, hex']

theorem selectSamples_eq_spec (files : List TFile) :
    selectSamples files = specSamples files := by
  unfold selectSamples specSamples
  have h1 := selPools_fst files [] [] (by norm_num)
  simp only [List.nil_append, Nat.sub_zero] at h1
  by_cases hc : (files.filter (fun f => isExplicitF f)).length ≤ 8
  · have h2 := selPools_snd files [] []
      (by simp only [List.length_nil, Nat.sub_zero]; exact hc) (by norm_num)
    simp only [List.nil_append] at h2
    rw [h1, h2]
    simp [List.length_map, List.length_take]
  · have hlen : ((files.filter (fun f => isExplicitF f)).take 8).length = 8 := by
      simp [List.length_take]
      omega
    rw [h1]
    simp [List.length_map, hlen]
    omega

theorem isExplicitF_reason_ne (f : TFile) (h : isExplicitF f = true) :
    joinReasons (fileReasons f) ≠ "" := by
  intro hj
  unfold isExplicitF at h
  rw [hj] at h
  exact absurd h (by decide)

theorem dropWhile_append_all {α : Type} {p : α → Bool} : ∀ {A B : List α},
    (∀ a ∈ A, p a = true) → (A ++ B).dropWhile p = B.dropWhile p := by
  intro A
  induction A with
  | nil => intro B _; simp
  | cons a t ih =>
    intro B hA
    rw [List.cons_append, List.dropWhile_cons_of_pos (hA a (List.mem_cons_self _ _))]
    exact ih (fun x hx => hA x (List.mem_cons_of_mem _ hx))

/-- C7: the Sampling Selector returns at most 8 items; explicit-reason files
are admitted first in traversal order up to the cap, the remaining slots are
filled from the other files by size descending (stably); and in the returned
list every item with a non-empty reasons field precedes every item with an
empty reasons field. -/
theorem C7_sampling_selector (files : List TFile) :
    selectSamples files = specSamples files ∧
    (selectSamples files).length ≤ 8 ∧
    ((selectSamples files).dropWhile (fun s => !(s.reason == ""))).all
      (fun s => s.reason == "") = true := by
  refine ⟨selectSamples_eq_spec files, ?_, ?_⟩
  · rw [selectSamples_eq_spec files]
    unfold specSamples
    simp only [List.length_append, List.length_map, List.length_take]
    omega
  · rw [selectSamples_eq_spec files]
    unfold specSamples
    rw [dropWhile_append_all ?hA]
    case hA =>
      intro a ha
      simp only [List.mem_map] at ha
      obtain ⟨f, hf, rfl⟩ := ha
      have hex : isExplicitF f = true := by
        have hmem := List.mem_of_mem_take hf
        exact (List.mem_filter.mp hmem).2
      have hne := isExplicitF_reason_ne f hex
      simp only [mkExplSample, Bool.not_eq_true']
      simpa using hne
    have hall : ∀ s ∈ (((files.filter (fun f => !(isExplicitF f))).mergeSort sizeDescLe).take
        (8 - ((files.filter (fun f => isExplicitF f)).take 8).length)).map mkFillSample,
        (s.reason == "") = true := by
      intro s hs
      simp only [List.mem_map] at hs
      obtain ⟨f, _, rfl⟩ := hs
      rfl
    cases hB : (((files.filter (fun f => !(isExplicitF f))).mergeSort sizeDescLe).take
        (8 - ((files.filter (fun f => isExplicitF f)).take 8).length)).map mkFillSample with
    | nil => simp
    | cons b t =>
      rw [List.dropWhile_cons_of_neg]
      · rw [List.all_eq_true]
        intro x hx
        have := hall x (by rw [hB]; exact hx)
        exact this
      · have hb := hall b (by rw [hB]; exact List.mem_cons_self _ _)
        simp [hb]

/-! ### Timeline lemmas for C8 -/

theorem tlLe_trans (a b c : TimelineEntry) (hab : tlLe a b = true) (hbc : tlLe b c = true) :
    tlLe a c = true := by
  simp only [tlLe, Bool.or_eq_true, Bool.and_eq_true, decide_eq_true_eq, beq_iff_eq] at *
  omega

theorem tlLe_total (a b : TimelineEntry) : (tlLe a b || tlLe b a) = true := by
  simp only [tlLe, Bool.or_eq_true, Bool.and_eq_true, decide_eq_true_eq, beq_iff_eq]
  omega

theorem tlLe_mtime {a b : TimelineEntry} (h : tlLe a b = true) {ma mb : ℤ}
    (hma : a.mtime = some ma) (hmb : b.mtime = some mb) : mb ≤ ma := by
  simp only [tlLe, tlKey, hma, hmb, Bool.or_eq_true, Bool.and_eq_true, decide_eq_true_eq,
    beq_iff_eq, Option.getD_some, reduceCtorEq, if_false] at h
  rcases h with h | ⟨-, h⟩
  · omega
  · rcases h with h | ⟨h, -⟩ <;> omega

theorem tlLe_mtime_none {a b : TimelineEntry} (h : tlLe a b = true)
    (hna : a.mtime = none) : b.mtime = none := by
  cases hnb : b.mtime with
  | none => rfl
  | some mb =>
    exfalso
    simp only [tlLe, tlKey, hna, hnb, Bool.or_eq_true, Bool.and_eq_true, decide_eq_true_eq,
      beq_iff_eq, Option.getD_none, Option.getD_some, reduceCtorEq, if_false, if_true] at h
    rcases h with h | ⟨h, -⟩ <;> simp at h

/-- C8, amended: the timeline is a permutation of the projections of all
FileRecords, sorted by the composite key (mtime-is-absent ascending, -mtime,
ctime-is-absent ascending, -ctime); consequently, for entries A before B with
known mtimes, `A.mtime ≥ B.mtime` holds (the converse "A appears before B iff
A.mtime ≥ B.mtime" fails on mtime ties, where the ctime key decides — see the
counterexample), and an entry with known mtime never appears after one
without. -/
theorem C8_timeline_order (files : List TFile) :
    (buildTimeline files).Perm (files.map projTL) ∧
    (buildTimeline files).Pairwise (fun a b => tlLe a b = true) ∧
    (∀ (i j : ℕ) (hi : i < (buildTimeline files).length)
        (hj : j < (buildTimeline files).length), i < j → ∀ ma mb : ℤ,
      ((buildTimeline files).get ⟨i, hi⟩).mtime = some ma →
      ((buildTimeline files).get ⟨j, hj⟩).mtime = some mb → mb ≤ ma) ∧
    (∀ (i j : ℕ) (hi : i < (buildTimeline files).length)
        (hj : j < (buildTimeline files).length), i < j →
      ((buildTimeline files).get ⟨i, hi⟩).mtime = none →
      ((buildTimeline files).get ⟨j, hj⟩).mtime = none) := by
  have hpw : (buildTimeline files).Pairwise (fun a b => tlLe a b = true) := by
    have h := @List.sorted_mergeSort _ tlLe
      (fun a b c => by
        intro h1 h2
        exact tlLe_trans a b c h1 h2)
      (fun a b => tlLe_total a b) (files.map projTL)
    simpa [buildTimeline] using h
  refine ⟨List.mergeSort_perm _ _, hpw, ?_, ?_⟩
  · intro i j hi hj hij ma mb hma hmb
    have h := (List.pairwise_iff_getElem.mp hpw) i j hi hj hij
    rw [List.get_eq_getElem] at hma hmb
    exact tlLe_mtime h hma hmb
  · intro i j hi hj hij hna
    have h := (List.pairwise_iff_getElem.mp hpw) i j hi hj hij
    rw [List.get_eq_getElem] at hna ⊢
    exact tlLe_mtime_none h hna

/-- A file with mtime 100 and ctime 1. -/
def tfA : TFile :=
  { path := "/a", size := 1, head := [], ent := 0,
    ctime := some 1, mtime := some 100, atime := none }

/-- A file with mtime 100 and ctime 2. -/
def tfB : TFile :=
  { path := "/b", size := 1, head := [], ent := 0,
    ctime := some 2, mtime := some 100, atime := none }

/-- A file with mtime 5. -/
def tfD : TFile :=
  { path := "/d", size := 1, head := [], ent := 0,
    ctime := none, mtime := some 5, atime := none }

/-- A file with mtime 9. -/
def tfC : TFile :=
  { path := "/c", size := 1, head := [], ent := 0,
    ctime := none, mtime := some 9, atime := none }

unseal List.mergeSort List.merge in
/-- Counterexample for C8 as stated: two entries share mtime 100 and are
ordered by the ctime key, so "A appears before B iff A.mtime ≥ B.mtime" fails
— A's mtime is ≥ B's, yet A appears after B. -/
theorem C8_counterexample :
    (projTL tfA).mtime = some 100 ∧ (projTL tfB).mtime = some 100 ∧
      ¬ (((buildTimeline [tfA, tfB]).indexOf (projTL tfA) <
            (buildTimeline [tfA, tfB]).indexOf (projTL tfB)) ↔ (100 : ℤ) ≥ 100) := by
  refine ⟨rfl, rfl, ?_⟩
  decide

unseal List.mergeSort List.merge in
/-- Witness for C8 (amended): two entries with distinct known mtimes, the
more recent one listed first. -/
theorem C8_timeline_order_witness : (0 : ℕ) < 1 ∧ (5 : ℤ) ≤ 9 :=
  ⟨by decide,
    (C8_timeline_order [tfD, tfC]).2.2.1 0 1 (by decide) (by decide) (by decide) 9 5
      (by decide) (by decide)⟩

/-! ### Validator theorem for C9 -/

/-- C9: the image validator is total (a Lean function defined on every byte
buffer, returning a (bool, reason) verdict) and evaluates its checks in
order, short-circuiting on the first match: length ≥ 512 (anything shorter
yields a negative verdict), MBR signature at bytes 510-511, the "EFI PART"
GPT tag at offset 512, the fixed-offset filesystem signature table (NTFS,
FAT32/16/12, ext2/3/4, HFS+, in that order), then the large-mostly-binary
heuristic (> ~1 MiB and under 80% printable ASCII in the first 10,000
bytes); when nothing matches the verdict is negative. -/
theorem C9_validator_checks (b : List ℕ) :
    (b.length < 512 → (validateDiskImage b).1 = false) ∧
    (512 ≤ b.length → (b.drop 510).take 2 = mbrSigBytes →
      validateDiskImage b = (true, mbrMsg)) ∧
    (512 ≤ b.length → (b.drop 510).take 2 ≠ mbrSigBytes →
      520 ≤ b.length → (b.drop 512).take 8 = asciiBytes efiPartTag →
      validateDiskImage b = (true, gptMsg)) ∧
    (∀ d : String, 512 ≤ b.length → (b.drop 510).take 2 ≠ mbrSigBytes →
      ¬(520 ≤ b.length ∧ (b.drop 512).take 8 = asciiBytes efiPartTag) →
      sigScan b = some d → validateDiskImage b = (true, d ++ detectedSuffix)) ∧
    (512 ≤ b.length → (b.drop 510).take 2 ≠ mbrSigBytes →
      ¬(520 ≤ b.length ∧ (b.drop 512).take 8 = asciiBytes efiPartTag) →
      sigScan b = none → binaryHeuristic b = true →
      validateDiskImage b = (true, largeBinMsg)) ∧
    (512 ≤ b.length → (b.drop 510).take 2 ≠ mbrSigBytes →
      ¬(520 ≤ b.length ∧ (b.drop 512).take 8 = asciiBytes efiPartTag) →
      sigScan b = none → binaryHeuristic b = false →
      validateDiskImage b = (false, noSigMsg)) := by
  refine ⟨?_, ?_, ?_, ?_, ?_, ?_⟩
  · intro h
    simp [validateDiskImage, h]
  · intro h1 h2
    rw [validateDiskImage, if_neg (by omega), if_pos h2]
  · intro h1 h2 h3 h4
    rw [validateDiskImage, if_neg (by omega), if_neg h2, if_pos ⟨h3, h4⟩]
  · intro d h1 h2 h3 h4
    rw [validateDiskImage, if_neg (by omega), if_neg h2, if_neg h3, h4]
  · intro h1 h2 h3 h4 h5
    rw [validateDiskImage, if_neg (by omega), if_neg h2, if_neg h3, h4, if_pos h5]
  · intro h1 h2 h3 h4 h5
    rw [validateDiskImage, if_neg (by omega), if_neg h2, if_neg h3, h4, if_neg (by simp [h5])]

/-- A 512-byte buffer ending in the MBR signature. -/
def mbrBuf : List ℕ := List.replicate 510 0 ++ [85, 170]

theorem mbrBuf_length : mbrBuf.length = 512 := by
  rw [mbrBuf, List.length_append, List.length_replicate]
  decide

theorem mbrBuf_slice : (mbrBuf.drop 510).take 2 = mbrSigBytes := by
  rw [mbrBuf, List.drop_left' (List.length_replicate 510 0)]
  rfl

/-- Witness for C9 at a minimal MBR-signed buffer. -/
theorem C9_validator_checks_witness :
    512 ≤ mbrBuf.length ∧ validateDiskImage mbrBuf = (true, mbrMsg) :=
  ⟨le_of_eq mbrBuf_length.symm,
    (C9_validator_checks mbrBuf).2.1 (le_of_eq mbrBuf_length.symm) mbrBuf_slice⟩

end DFIR
